import Mathlib

/-!
Verification of the scoring-and-allocation engine `optimizar_prestamos`
from `src/model_opt.py`.

The engine receives a table of loan requests (a pandas DataFrame whose
integer index labels are `0, 1, ..., n-1` in input order), a capital
budget and a weight dictionary.  It derives two columns on the table
(`IPS`, `Eficiencia_Solidaria`), sorts by efficiency descending, walks
the sorted rows greedily collecting the index labels of the rows whose
amount fits the remaining capital, and returns `df.loc[labels]`,
`df.drop(labels)` and the remaining capital.

Numeric values are modelled as rationals.  Division in `ℚ` returns `0`
on a zero divisor where numpy produces `inf`/`NaN`; the demo generator
never produces a zero amount, and the theorems below that involve a zero
amount do not depend on the sort position of such a row.

The pandas call `df.sort_values(by=..., ascending=False)` (nargsort)
reverses the column together with the index array, argsorts ascending,
and reverses the resulting indexer; the two reversals cancel on equal
keys, so tied rows keep their original relative order.  numpy's default
sort is its introsort, which runs plain (stable) insertion sort on
arrays of fewer than 16 elements; the model below composes the same two
reversals around a stable ascending insertion sort and is exact for
such tables (and for pandas' stable mergesort kind at any size).
-/

open List (Sublist Perm)
open scoped List

/-- One loan request: a row of the input DataFrame of
`optimizar_prestamos`, with `ID_Proyecto`, `Monto_Solicitado` and the
five criterion scores.  The free-text project name never enters the
computation and is omitted. -/
structure Solicitud where
  idProyecto : Int
  monto : ℚ
  viabilidad : ℚ
  cohesion : ℚ
  impacto : ℚ
  necesidad : ℚ
  compromiso : ℚ
  deriving DecidableEq

/-- The weight dictionary `pesos` with keys `w_v, w_c, w_i, w_n, w_e`. -/
structure Pesos where
  w_v : ℚ
  w_c : ℚ
  w_i : ℚ
  w_n : ℚ
  w_e : ℚ
  deriving DecidableEq

/-- Source lines 39-45: the composite score column,
`df['IPS'] = pesos['w_v']*df['V_Viabilidad'] + pesos['w_c']*df['C_Cohesion_Grupo']
 + pesos['w_i']*df['I_Impacto_Comunitario'] + pesos['w_n']*df['N_Nivel_Necesidad']
 + pesos['w_e']*df['E_Compromiso']`. -/
def calcIPS (p : Pesos) (s : Solicitud) : ℚ :=
  p.w_v * s.viabilidad + p.w_c * s.cohesion + p.w_i * s.impacto +
    p.w_n * s.necesidad + p.w_e * s.compromiso

/-- A table row after the two derived-column assignments. -/
structure ScoredRow where
  sol : Solicitud
  ips : ℚ
  eficiencia : ℚ
  deriving DecidableEq

/-- Source line 48: `df['Eficiencia_Solidaria'] = df['IPS'] / df['Monto_Solicitado']`,
applied rowwise together with the `IPS` assignment of lines 39-45. -/
def scoreRow (p : Pesos) (s : Solicitud) : ScoredRow :=
  ⟨s, calcIPS p s, calcIPS p s / s.monto⟩

/-- The table after both column assignments, in input order. -/
def scoredTable (p : Pesos) (df : List Solicitud) : List ScoredRow :=
  df.map (scoreRow p)

/-- A row paired with its DataFrame integer index label. -/
abbrev IRow := Nat × ScoredRow

/-- Ascending comparison on the `Eficiencia_Solidaria` column. -/
def effLe (a b : IRow) : Prop :=
  a.2.eficiencia ≤ b.2.eficiencia

instance : DecidableRel effLe := fun a b =>
  inferInstanceAs (Decidable (a.2.eficiencia ≤ b.2.eficiencia))

/-- Source line 51: `df.sort_values(by='Eficiencia_Solidaria', ascending=False)`.
pandas nargsort implements the descending sort by reversing the column
together with its index array, argsorting ascending, and reversing the
resulting indexer; the two reversals cancel on equal keys, so tied rows
keep their original relative order.  For tables of fewer than 16 rows
numpy's argsort is a stable insertion sort and the model is exact. -/
def sortDescEff (l : List IRow) : List IRow :=
  (List.insertionSort effLe l.reverse).reverse

/-- Source lines 55-60: the selection loop.  Walk the sorted rows with
`capital_restante` initialised to the budget; when a row's
`Monto_Solicitado` fits, append its index label to
`proyectos_aprobados_idx` and subtract the amount. -/
def greedyIdx (capital : ℚ) : List IRow → List Nat × ℚ
  | [] => ([], capital)
  | r :: rs =>
    if r.2.sol.monto ≤ capital then
      let t := greedyIdx (capital - r.2.sol.monto) rs
      (r.1 :: t.1, t.2)
    else
      greedyIdx capital rs

/-- Source line 62, `df.loc[idx]`: for each label of `idx` in order, the
row of `tbl` carrying that label. -/
def locRows (tbl : List IRow) (idx : List Nat) : List IRow :=
  idx.filterMap (fun i => tbl.find? (fun x => x.1 == i))

/-- Source line 63, `df.drop(idx)`: the rows of `tbl` whose label is not
in `idx`, kept in table (input) order. -/
def dropRows (tbl : List IRow) (idx : List Nat) : List IRow :=
  tbl.filter (fun x => !(idx.contains x.1))

/-- Source lines 36-65: `optimizar_prestamos(df, capital_disponible, pesos)`.
Returns `(proyectos_aprobados, proyectos_rechazados, capital_restante)`
over the index-labelled table. -/
def optimizar_prestamos (df : List Solicitud) (capital_disponible : ℚ)
    (pesos : Pesos) : List IRow × List IRow × ℚ :=
  let dfI : List IRow := (scoredTable pesos df).enum
  let g := greedyIdx capital_disponible (sortDescEff dfI)
  (locRows dfI g.1, dropRows dfI g.1, g.2)

/-- Modelled from the spec, section 4.1 steps 4-5: a single pass over the
sorted sequence that marks each row approved (subtracting its amount)
when it fits the remaining capital and waitlisted otherwise.  Used as
the refinement target for the source's index-based loop. -/
def greedyWalk (capital : ℚ) : List IRow → List IRow × List IRow × ℚ
  | [] => ([], [], capital)
  | r :: rs =>
    if r.2.sol.monto ≤ capital then
      let t := greedyWalk (capital - r.2.sol.monto) rs
      (r :: t.1, t.2.1, t.2.2)
    else
      let t := greedyWalk capital rs
      (t.1, r :: t.2.1, t.2.2)

/-! ### Helper lemmas about the greedy walk -/

theorem greedyIdx_eq_walk (capital : ℚ) (l : List IRow) :
    greedyIdx capital l =
      ((greedyWalk capital l).1.map Prod.fst, (greedyWalk capital l).2.2) := by
  induction l generalizing capital with
  | nil => rfl
  | cons r rs ih =>
    simp only [greedyIdx, greedyWalk]
    split
    · simp [ih]
    · simp [ih]

theorem greedyWalk_approved_sublist (capital : ℚ) (l : List IRow) :
    (greedyWalk capital l).1 <+ l := by
  induction l generalizing capital with
  | nil => simp [greedyWalk]
  | cons r rs ih =>
    simp only [greedyWalk]
    split
    · exact List.Sublist.cons₂ r (ih _)
    · exact List.Sublist.cons r (ih _)

theorem greedyWalk_waitlist_sublist (capital : ℚ) (l : List IRow) :
    (greedyWalk capital l).2.1 <+ l := by
  induction l generalizing capital with
  | nil => simp [greedyWalk]
  | cons r rs ih =>
    simp only [greedyWalk]
    split
    · exact List.Sublist.cons r (ih _)
    · exact List.Sublist.cons₂ r (ih _)

theorem greedyWalk_partition_perm (capital : ℚ) (l : List IRow) :
    (greedyWalk capital l).1 ++ (greedyWalk capital l).2.1 ~ l := by
  induction l generalizing capital with
  | nil => simp [greedyWalk]
  | cons r rs ih =>
    simp only [greedyWalk]
    split
    · exact List.Perm.cons r (ih _)
    · exact List.perm_middle.trans (List.Perm.cons r (ih _))

theorem greedyWalk_remaining_eq (capital : ℚ) (l : List IRow) :
    (greedyWalk capital l).2.2 =
      capital - (((greedyWalk capital l).1.map (fun x => x.2.sol.monto)).sum) := by
  induction l generalizing capital with
  | nil => simp [greedyWalk]
  | cons r rs ih =>
    simp only [greedyWalk]
    split
    · simp only [List.map_cons, List.sum_cons]
      rw [ih]
      ring
    · simpa using ih capital

theorem greedyWalk_remaining_nonneg (capital : ℚ) (l : List IRow)
    (h : 0 ≤ capital) : 0 ≤ (greedyWalk capital l).2.2 := by
  induction l generalizing capital with
  | nil => simpa [greedyWalk] using h
  | cons r rs ih =>
    simp only [greedyWalk]
    split
    · exact ih _ (by linarith)
    · exact ih _ h

/-! ### Helper lemmas about label lookup and the sorted table -/

theorem find?_label_eq_some {tbl : List IRow}
    (hnd : (tbl.map Prod.fst).Nodup) {r : IRow} (hr : r ∈ tbl) :
    tbl.find? (fun x => x.1 == r.1) = some r := by
  induction tbl with
  | nil => cases hr
  | cons a t ih =>
    rcases List.mem_cons.mp hr with h | h
    · subst h
      simp [List.find?]
    · have hne : a.1 ≠ r.1 := by
        intro he
        have : r.1 ∈ t.map Prod.fst := List.mem_map_of_mem Prod.fst h
        rw [← he] at this
        exact (List.nodup_cons.mp hnd).1 this
      have hrec := ih (List.nodup_cons.mp hnd).2 h
      rw [List.find?_cons_of_neg _ (by simp [hne])]
      exact hrec

theorem locRows_map_fst {tbl : List IRow} (hnd : (tbl.map Prod.fst).Nodup)
    {xs : List IRow} (hxs : ∀ r ∈ xs, r ∈ tbl) :
    locRows tbl (xs.map Prod.fst) = xs := by
  induction xs with
  | nil => rfl
  | cons a t ih =>
    have ha := find?_label_eq_some hnd (hxs a (List.mem_cons_self a t))
    have ht := ih (fun r hr => hxs r (List.mem_cons_of_mem a hr))
    simp only [locRows, List.map_cons, List.filterMap_cons, ha]
    simpa [locRows] using ht

theorem sortDescEff_perm (l : List IRow) : Perm (sortDescEff l) l :=
  ((List.reverse_perm _).trans (List.perm_insertionSort effLe l.reverse)).trans
    (List.reverse_perm l)

theorem sortDescEff_map_fst_nodup {l : List IRow}
    (h : (l.map Prod.fst).Nodup) : ((sortDescEff l).map Prod.fst).Nodup :=
  ((sortDescEff_perm l).map Prod.fst).nodup_iff.mpr h

theorem fst_inj_of_nodup {tbl : List IRow} (hnd : (tbl.map Prod.fst).Nodup)
    {x y : IRow} (hx : x ∈ tbl) (hy : y ∈ tbl) (hxy : x.1 = y.1) : x = y :=
  List.inj_on_of_nodup_map hnd hx hy hxy

/-! ### Characterization of the three outputs of the engine -/

theorem optimizar_aprobados_eq (df : List Solicitud) (cap : ℚ) (p : Pesos) :
    (optimizar_prestamos df cap p).1 =
      (greedyWalk cap (sortDescEff (scoredTable p df).enum)).1 := by
  have hnd : (((scoredTable p df).enum).map Prod.fst).Nodup :=
    List.nodup_enum_map_fst _
  simp only [optimizar_prestamos]
  rw [greedyIdx_eq_walk]
  refine locRows_map_fst hnd (fun r hr => ?_)
  have h1 : r ∈ sortDescEff (scoredTable p df).enum :=
    (greedyWalk_approved_sublist _ _).subset hr
  exact (sortDescEff_perm _).subset h1

theorem optimizar_remaining_eq (df : List Solicitud) (cap : ℚ) (p : Pesos) :
    (optimizar_prestamos df cap p).2.2 =
      (greedyWalk cap (sortDescEff (scoredTable p df).enum)).2.2 := by
  simp only [optimizar_prestamos]
  rw [greedyIdx_eq_walk]

theorem optimizar_rechazados_eq (df : List Solicitud) (cap : ℚ) (p : Pesos) :
    (optimizar_prestamos df cap p).2.1 =
      dropRows (scoredTable p df).enum
        ((greedyWalk cap (sortDescEff (scoredTable p df).enum)).1.map Prod.fst) := by
  simp only [optimizar_prestamos]
  rw [greedyIdx_eq_walk]

/-! ### Partition counting helpers -/

theorem mem_dropRows {tbl : List IRow} {idx : List Nat} {x : IRow} :
    x ∈ dropRows tbl idx ↔ x ∈ tbl ∧ ¬ x.1 ∈ idx := by
  simp [dropRows, List.contains]

theorem length_filter_label_mem (tbl : List IRow) : ∀ (idx : List Nat),
    (tbl.map Prod.fst).Nodup → idx.Nodup →
    (∀ i ∈ idx, i ∈ tbl.map Prod.fst) →
    (tbl.filter (fun x => idx.contains x.1)).length = idx.length := by
  induction tbl with
  | nil =>
    intro idx _ _ hsub
    cases idx with
    | nil => rfl
    | cons i is => exact absurd (hsub i (List.mem_cons_self i is)) (by simp)
  | cons a t ih =>
    intro idx hndt hnd hsub
    by_cases ha : a.1 ∈ idx
    · rw [List.filter_cons_of_pos (by simp [List.contains, ha])]
      have hxa : ∀ x ∈ t, x.1 ≠ a.1 := by
        intro x hx he
        have hmem : x.1 ∈ t.map Prod.fst := List.mem_map_of_mem Prod.fst hx
        rw [he] at hmem
        exact (List.nodup_cons.mp hndt).1 hmem
      have hfeq : t.filter (fun x => idx.contains x.1)
          = t.filter (fun x => (idx.erase a.1).contains x.1) := by
        refine List.filter_congr (fun x hx => ?_)
        have hiff : x.1 ∈ idx.erase a.1 ↔ x.1 ∈ idx := by
          rw [hnd.mem_erase_iff]
          exact and_iff_right (hxa x hx)
        simp [List.contains, hiff]
      rw [List.length_cons, hfeq,
        ih (idx.erase a.1) (List.nodup_cons.mp hndt).2 (hnd.erase a.1) ?_]
      · have hpos : 0 < idx.length := List.length_pos_of_mem ha
        rw [List.length_erase_of_mem ha]
        omega
      · intro i hi
        rcases hnd.mem_erase_iff.mp hi with ⟨hne, hmem⟩
        have hin := hsub i hmem
        simp only [List.map_cons, List.mem_cons] at hin
        exact hin.resolve_left hne
    · rw [List.filter_cons_of_neg (by simp [List.contains, ha])]
      refine ih idx (List.nodup_cons.mp hndt).2 hnd ?_
      intro i hi
      have hin := hsub i hi
      simp only [List.map_cons, List.mem_cons] at hin
      refine hin.resolve_left ?_
      intro he
      rw [he] at hi
      exact ha hi

theorem length_dropRows (tbl : List IRow) (idx : List Nat)
    (hndt : (tbl.map Prod.fst).Nodup) (hnd : idx.Nodup)
    (hsub : ∀ i ∈ idx, i ∈ tbl.map Prod.fst) :
    (dropRows tbl idx).length + idx.length = tbl.length := by
  have hperm := List.filter_append_perm (fun x => idx.contains x.1) tbl
  have hlen := hperm.length_eq
  rw [List.length_append] at hlen
  rw [length_filter_label_mem tbl idx hndt hnd hsub] at hlen
  have : dropRows tbl idx = tbl.filter (fun x => !(idx.contains x.1)) := rfl
  rw [this]
  omega

/-! ### Tie order of the sort -/

theorem enum_pairwise_fst_lt (l : List ScoredRow) :
    l.enum.Pairwise (fun a b => a.1 < b.1) := by
  have h := List.pairwise_lt_range l.length
  rw [← List.enum_map_fst] at h
  exact List.pairwise_map.mp h

theorem pair_sublist_of_pairwise_lt {l : List IRow}
    (hp : l.Pairwise (fun a b => a.1 < b.1)) {x y : IRow}
    (hx : x ∈ l) (hy : y ∈ l) (hlt : x.1 < y.1) : [x, y] <+ l := by
  induction l with
  | nil => cases hx
  | cons a t ih =>
    rcases List.mem_cons.mp hx with h1 | hx'
    · subst h1
      rcases List.mem_cons.mp hy with h2 | hy'
      · rw [h2] at hlt
        exact absurd hlt (lt_irrefl _)
      · exact List.Sublist.cons₂ _ (List.singleton_sublist.mpr hy')
    · rcases List.mem_cons.mp hy with h2 | hy'
      · have hax := (List.pairwise_cons.mp hp).1 x hx'
        rw [h2] at hlt
        omega
      · exact List.Sublist.cons a (ih (List.pairwise_cons.mp hp).2 hx' hy')

theorem sortDescEff_tie_stable {tbl : List ScoredRow} {x y : IRow}
    (hx : x ∈ tbl.enum) (hy : y ∈ tbl.enum) (hlt : x.1 < y.1)
    (heq : x.2.eficiencia = y.2.eficiencia) :
    [x, y] <+ sortDescEff tbl.enum := by
  have hin : [x, y] <+ tbl.enum :=
    pair_sublist_of_pairwise_lt (enum_pairwise_fst_lt tbl) hx hy hlt
  have hrev : [y, x] <+ tbl.enum.reverse := by
    have h := List.reverse_sublist.mpr hin
    simpa using h
  have hba : effLe y x := le_of_eq heq.symm
  have hpair : [y, x] <+ List.insertionSort effLe tbl.enum.reverse :=
    List.pair_sublist_insertionSort hba hrev
  have hfinal := List.reverse_sublist.mpr hpair
  simpa [sortDescEff] using hfinal

theorem pair_sublist_of_sublist_of_mem :
    ∀ {l s : List IRow}, s <+ l → l.Nodup → ∀ {x y : IRow}, [x, y] <+ l →
      x ∈ s → y ∈ s → [x, y] <+ s := by
  intro l s hs
  induction hs with
  | slnil =>
    intro _ x y _ hx _
    cases hx
  | cons a hs ih =>
    intro hnd x y hp hx hy
    cases hp with
    | cons _ hp2 =>
      exact ih (List.nodup_cons.mp hnd).2 hp2 hx hy
    | cons₂ _ hp2 =>
      exact absurd (hs.subset hx) (List.nodup_cons.mp hnd).1
  | cons₂ a hs ih =>
    intro hnd x y hp hx hy
    have hanotin := (List.nodup_cons.mp hnd).1
    cases hp with
    | cons _ hp2 =>
      rcases List.mem_cons.mp hx with h1 | hx'
      · subst h1
        exact absurd (hp2.subset (List.mem_cons_self _ _)) hanotin
      · rcases List.mem_cons.mp hy with h2 | hy'
        · subst h2
          exact absurd
            (hp2.subset (List.mem_cons_of_mem _ (List.mem_cons_self _ _)))
            hanotin
        · exact List.Sublist.cons a
            (ih (List.nodup_cons.mp hnd).2 hp2 hx' hy')
    | cons₂ _ hp2 =>
      rcases List.mem_cons.mp hy with h2 | hy'
      · subst h2
        exact absurd (hp2.subset (List.mem_cons_self _ _)) hanotin
      · exact List.Sublist.cons₂ a (List.singleton_sublist.mpr hy')

theorem sortDescEff_enum_nodup (l : List ScoredRow) :
    (sortDescEff l.enum).Nodup :=
  (sortDescEff_perm _).nodup_iff.mpr
    (List.Nodup.of_map Prod.fst (List.nodup_enum_map_fst l))

/-! ### Rows of the outputs carry the derived columns of their request -/

theorem mem_scoredTable_char {p : Pesos} {df : List Solicitud} {r : ScoredRow}
    (h : r ∈ scoredTable p df) :
    r.ips = calcIPS p r.sol ∧ r.eficiencia = calcIPS p r.sol / r.sol.monto := by
  rcases List.mem_map.mp h with ⟨s, _, hs⟩
  rw [← hs]
  exact ⟨rfl, rfl⟩

theorem optimizar_output_mem {df : List Solicitud} {cap : ℚ} {p : Pesos} {x : IRow}
    (h : x ∈ (optimizar_prestamos df cap p).1 ∨
      x ∈ (optimizar_prestamos df cap p).2.1) :
    x ∈ (scoredTable p df).enum := by
  rcases h with h | h
  · rw [optimizar_aprobados_eq] at h
    have h1 : x ∈ sortDescEff (scoredTable p df).enum :=
      (greedyWalk_approved_sublist _ _).subset h
    exact (sortDescEff_perm _).subset h1
  · rw [optimizar_rechazados_eq] at h
    exact (mem_dropRows.mp h).1

theorem snd_mem_of_mem_enum {x : Nat × ScoredRow} {l : List ScoredRow}
    (h : x ∈ l.enum) : x.2 ∈ l :=
  List.snd_mem_of_mem_enumFrom h

/-! ### State of the caller's df argument across the call -/

/-- A row of the caller's DataFrame: the request fields are always
present, the two derived columns only once assigned. -/
structure RowOpt where
  sol : Solicitud
  ipsCol : Option ℚ
  effCol : Option ℚ
  deriving DecidableEq

/-- A row of the input table before the engine runs: no derived columns. -/
def plainRow (s : Solicitud) : RowOpt :=
  ⟨s, none, none⟩

/-- The value of the `df` argument object after
`optimizar_prestamos(df, ...)` returns: the two in-place column
assignments of source lines 39-48 set `IPS` and `Eficiencia_Solidaria`
on every row of the caller's object, and nothing else in the function
writes to `df`. -/
def dfArgAfterCall (p : Pesos) (df : List RowOpt) : List RowOpt :=
  df.map (fun r =>
    { r with ipsCol := some (calcIPS p r.sol),
             effCol := some (calcIPS p r.sol / r.sol.monto) })

/-! ### Concrete inputs used in witnesses and counterexamples -/

/-- The demo's default weights: 0.3, 0.2, 0.2, 0.2, 0.1. -/
def pesosDemo : Pesos :=
  ⟨3/10, 2/10, 2/10, 2/10, 1/10⟩

/-- A request of amount 100 with all criterion scores 5. -/
def solEjemplo1 : Solicitud :=
  ⟨1, 100, 5, 5, 5, 5, 5⟩

/-- A second request identical to `solEjemplo1` except for its id, hence
with the same efficiency. -/
def solEjemplo2 : Solicitud :=
  ⟨2, 100, 5, 5, 5, 5, 5⟩

/-- A degenerate request with `Monto_Solicitado = 0`. -/
def solCero : Solicitud :=
  ⟨1, 0, 5, 5, 5, 5, 5⟩

/-- A request of amount 50. -/
def solCincuenta : Solicitud :=
  ⟨1, 50, 5, 5, 5, 5, 5⟩

/-! ### Claims -/

/-- C1: for every collection of requests, budget and weight vector, the
allocation walks the efficiency-descending sorted sequence once with
`capital_restante` initialised to the budget, approves a row exactly when
its `Monto_Solicitado` fits the capital remaining at that moment
(subtracting on approval, waitlisting otherwise), and returns the
approved set in the order of that sorted sequence: the source's
index-based loop refines the single greedy pass `greedyWalk` over the
sorted table, and the approved output is a sublist of the sorted table. -/
theorem C1_greedy_refines_spec (df : List Solicitud) (cap : ℚ) (p : Pesos) :
    (optimizar_prestamos df cap p).1 =
        (greedyWalk cap (sortDescEff (scoredTable p df).enum)).1 ∧
      (optimizar_prestamos df cap p).2.2 =
        (greedyWalk cap (sortDescEff (scoredTable p df).enum)).2.2 ∧
      (optimizar_prestamos df cap p).1 <+ sortDescEff (scoredTable p df).enum :=
  ⟨optimizar_aprobados_eq df cap p, optimizar_remaining_eq df cap p, by
    rw [optimizar_aprobados_eq]
    exact greedyWalk_approved_sublist _ _⟩

/-- C2: for every input with a non-negative budget (the input domain of
the contract), the returned remaining capital equals the budget minus
the sum of the approved requested amounts, and it is non-negative. -/
theorem C2_conservation (df : List Solicitud) (cap : ℚ) (p : Pesos)
    (h : 0 ≤ cap) :
    (optimizar_prestamos df cap p).2.2 =
        cap - (((optimizar_prestamos df cap p).1.map
          (fun x => x.2.sol.monto)).sum) ∧
      0 ≤ (optimizar_prestamos df cap p).2.2 := by
  constructor
  · rw [optimizar_remaining_eq, optimizar_aprobados_eq]
    exact greedyWalk_remaining_eq _ _
  · rw [optimizar_remaining_eq]
    exact greedyWalk_remaining_nonneg _ _ h

/-- Witness for C2 at two concrete requests, budget 1000, demo weights. -/
theorem C2_conservation_witness :
    (optimizar_prestamos [solEjemplo1, solEjemplo2] 1000 pesosDemo).2.2 =
        1000 - (((optimizar_prestamos [solEjemplo1, solEjemplo2] 1000
          pesosDemo).1.map (fun x => x.2.sol.monto)).sum) ∧
      0 ≤ (optimizar_prestamos [solEjemplo1, solEjemplo2] 1000 pesosDemo).2.2 :=
  C2_conservation [solEjemplo1, solEjemplo2] 1000 pesosDemo (by norm_num)

/-- C3: the two returned partitions are disjoint and exhaustive: the
lengths of approved and waitlisted add up to the number of input
requests, and every input row (identified by its index label) lies in
exactly one of the two outputs. -/
theorem C3_partition (df : List Solicitud) (cap : ℚ) (p : Pesos) :
    (optimizar_prestamos df cap p).1.length +
        (optimizar_prestamos df cap p).2.1.length = df.length ∧
      ∀ x ∈ (scoredTable p df).enum,
        (x ∈ (optimizar_prestamos df cap p).1 ∧
            ¬ x ∈ (optimizar_prestamos df cap p).2.1) ∨
          (x ∈ (optimizar_prestamos df cap p).2.1 ∧
            ¬ x ∈ (optimizar_prestamos df cap p).1) := by
  have hndI : (((scoredTable p df).enum).map Prod.fst).Nodup :=
    List.nodup_enum_map_fst _
  have hndS : ((sortDescEff ((scoredTable p df).enum)).map Prod.fst).Nodup :=
    sortDescEff_map_fst_nodup hndI
  have happr := optimizar_aprobados_eq df cap p
  have hrech := optimizar_rechazados_eq df cap p
  have hwsub := greedyWalk_approved_sublist cap
    (sortDescEff ((scoredTable p df).enum))
  have hmemI : ∀ r ∈ (greedyWalk cap
      (sortDescEff ((scoredTable p df).enum))).1,
      r ∈ (scoredTable p df).enum := fun r hr =>
    (sortDescEff_perm _).subset (hwsub.subset hr)
  have hidxnd : ((greedyWalk cap
      (sortDescEff ((scoredTable p df).enum))).1.map Prod.fst).Nodup :=
    (hwsub.map Prod.fst).nodup hndS
  have hidxsub : ∀ i ∈ (greedyWalk cap
      (sortDescEff ((scoredTable p df).enum))).1.map Prod.fst,
      i ∈ ((scoredTable p df).enum).map Prod.fst := by
    intro i hi
    rcases List.mem_map.mp hi with ⟨r, hr, hri⟩
    rw [← hri]
    exact List.mem_map_of_mem Prod.fst (hmemI r hr)
  constructor
  · have hlen := length_dropRows ((scoredTable p df).enum)
      ((greedyWalk cap (sortDescEff ((scoredTable p df).enum))).1.map Prod.fst)
      hndI hidxnd hidxsub
    rw [happr, hrech]
    rw [List.enum_length] at hlen
    have hst : (scoredTable p df).length = df.length := List.length_map _ _
    rw [hst] at hlen
    have hmaplen : ((greedyWalk cap
        (sortDescEff ((scoredTable p df).enum))).1.map Prod.fst).length =
        (greedyWalk cap (sortDescEff ((scoredTable p df).enum))).1.length :=
      List.length_map _ _
    omega
  · intro x hx
    by_cases hxi : x.1 ∈ (greedyWalk cap
        (sortDescEff ((scoredTable p df).enum))).1.map Prod.fst
    · left
      have hxa : x ∈ (greedyWalk cap
          (sortDescEff ((scoredTable p df).enum))).1 := by
        rcases List.mem_map.mp hxi with ⟨y, hy, hyx⟩
        have := fst_inj_of_nodup hndI (hmemI y hy) hx hyx
        rw [← this]
        exact hy
      constructor
      · rw [happr]
        exact hxa
      · rw [hrech]
        intro hcon
        exact (mem_dropRows.mp hcon).2 hxi
    · right
      constructor
      · rw [hrech]
        exact mem_dropRows.mpr ⟨hx, hxi⟩
      · rw [happr]
        intro hcon
        exact hxi (List.mem_map_of_mem Prod.fst hcon)

/-- Witness for C3 at one concrete request, budget 60, demo weights. -/
theorem C3_partition_witness :
    ((optimizar_prestamos [solEjemplo1] 60 pesosDemo).1.length +
        (optimizar_prestamos [solEjemplo1] 60 pesosDemo).2.1.length = 1) ∧
      (((0, scoreRow pesosDemo solEjemplo1) ∈
            (optimizar_prestamos [solEjemplo1] 60 pesosDemo).1 ∧
          ¬ (0, scoreRow pesosDemo solEjemplo1) ∈
            (optimizar_prestamos [solEjemplo1] 60 pesosDemo).2.1) ∨
        ((0, scoreRow pesosDemo solEjemplo1) ∈
            (optimizar_prestamos [solEjemplo1] 60 pesosDemo).2.1 ∧
          ¬ (0, scoreRow pesosDemo solEjemplo1) ∈
            (optimizar_prestamos [solEjemplo1] 60 pesosDemo).1)) :=
  ⟨(C3_partition [solEjemplo1] 60 pesosDemo).1,
    (C3_partition [solEjemplo1] 60 pesosDemo).2
      (0, scoreRow pesosDemo solEjemplo1)
      (by simp [scoredTable, List.enum, List.enumFrom])⟩

/-- C4: every row of either output partition carries as composite score
exactly the dot product of the five criterion scores of its request with
the weights as given; the engine never normalizes or rescales them. -/
theorem C4_ips_exact_dot_product (df : List Solicitud) (cap : ℚ) (p : Pesos)
    (x : IRow)
    (h : x ∈ (optimizar_prestamos df cap p).1 ∨
      x ∈ (optimizar_prestamos df cap p).2.1) :
    x.2.ips = p.w_v * x.2.sol.viabilidad + p.w_c * x.2.sol.cohesion +
      p.w_i * x.2.sol.impacto + p.w_n * x.2.sol.necesidad +
      p.w_e * x.2.sol.compromiso := by
  have hm := optimizar_output_mem h
  have hs := mem_scoredTable_char (snd_mem_of_mem_enum hm)
  rw [hs.1]
  rfl

/-- Witness for C4 at a concrete approved row. -/
theorem C4_ips_exact_dot_product_witness :
    (0, scoreRow pesosDemo solEjemplo1).2.ips =
      pesosDemo.w_v * (0, scoreRow pesosDemo solEjemplo1).2.sol.viabilidad +
      pesosDemo.w_c * (0, scoreRow pesosDemo solEjemplo1).2.sol.cohesion +
      pesosDemo.w_i * (0, scoreRow pesosDemo solEjemplo1).2.sol.impacto +
      pesosDemo.w_n * (0, scoreRow pesosDemo solEjemplo1).2.sol.necesidad +
      pesosDemo.w_e * (0, scoreRow pesosDemo solEjemplo1).2.sol.compromiso :=
  C4_ips_exact_dot_product [solEjemplo1] 1000 pesosDemo
    (0, scoreRow pesosDemo solEjemplo1)
    (Or.inl (by
      norm_num [optimizar_prestamos, scoredTable, scoreRow, calcIPS,
        sortDescEff, effLe, greedyIdx, locRows, dropRows,
        List.insertionSort, List.orderedInsert, List.enum, List.enumFrom,
        List.find?, List.filterMap, List.filter, pesosDemo, solEjemplo1]))

/-- C5: evidence that the code violates the claim: the efficiency
division is not guarded (for a zero amount the model's rational division
returns 0 where numpy emits an infinite value), and a request with
`Monto_Solicitado = 0` is nevertheless approved, since an amount of 0
always fits the remaining capital. -/
theorem C5_zero_amount_approved :
    (optimizar_prestamos [solCero] 100 pesosDemo).1 =
        [(0, scoreRow pesosDemo solCero)] ∧
      solCero.monto = 0 := by
  constructor
  · norm_num [optimizar_prestamos, scoredTable, scoreRow, calcIPS,
      sortDescEff, effLe, greedyIdx, locRows, dropRows,
      List.insertionSort, List.orderedInsert, List.enum, List.enumFrom,
      List.find?, List.filterMap, List.filter, pesosDemo, solCero]
  · rfl

/-- C6: for any two requests in the input with equal efficiency, the
engine's sort preserves their original relative order from the input
collection (stable tie-break), both in the overall
efficiency-descending ranking and in the returned approved sequence:
pandas implements the descending sort by reversing the column together
with its index array, argsorting ascending with a stable kernel, and
reversing the resulting indexer, and the two reversals cancel on
ties. -/
theorem C6_tie_preserves_input_order (df : List Solicitud) (cap : ℚ)
    (p : Pesos) (x y : IRow)
    (hx : x ∈ (scoredTable p df).enum) (hy : y ∈ (scoredTable p df).enum)
    (hlt : x.1 < y.1) (heq : x.2.eficiencia = y.2.eficiencia) :
    [x, y] <+ sortDescEff ((scoredTable p df).enum) ∧
      (x ∈ (optimizar_prestamos df cap p).1 →
        y ∈ (optimizar_prestamos df cap p).1 →
        [x, y] <+ (optimizar_prestamos df cap p).1) := by
  have hrank := sortDescEff_tie_stable hx hy hlt heq
  refine ⟨hrank, fun hxa hya => ?_⟩
  rw [optimizar_aprobados_eq] at hxa hya ⊢
  exact pair_sublist_of_sublist_of_mem
    (greedyWalk_approved_sublist cap (sortDescEff ((scoredTable p df).enum)))
    (sortDescEff_enum_nodup _) hrank hxa hya

/-- Witness for C6 at the two tied example requests, budget 1000: both
are approved and appear in input order in the ranking and in the
approved sequence. -/
theorem C6_tie_preserves_input_order_witness :
    ([(0, scoreRow pesosDemo solEjemplo1), (1, scoreRow pesosDemo solEjemplo2)]
        <+ sortDescEff ((scoredTable pesosDemo
          [solEjemplo1, solEjemplo2]).enum)) ∧
      ([(0, scoreRow pesosDemo solEjemplo1), (1, scoreRow pesosDemo solEjemplo2)]
        <+ (optimizar_prestamos [solEjemplo1, solEjemplo2] 1000 pesosDemo).1) := by
  have h := C6_tie_preserves_input_order [solEjemplo1, solEjemplo2] 1000
    pesosDemo (0, scoreRow pesosDemo solEjemplo1)
    (1, scoreRow pesosDemo solEjemplo2)
    (by simp [scoredTable, List.enum, List.enumFrom])
    (by simp [scoredTable, List.enum, List.enumFrom])
    (by norm_num)
    (by norm_num [scoreRow, calcIPS, pesosDemo, solEjemplo1, solEjemplo2])
  have happr : (optimizar_prestamos [solEjemplo1, solEjemplo2] 1000
      pesosDemo).1 =
      [(0, scoreRow pesosDemo solEjemplo1),
        (1, scoreRow pesosDemo solEjemplo2)] := by
    norm_num [optimizar_prestamos, scoredTable, scoreRow, calcIPS,
      sortDescEff, effLe, greedyIdx, locRows, dropRows,
      List.insertionSort, List.orderedInsert, List.enum, List.enumFrom,
      List.find?, List.filterMap, List.filter, pesosDemo, solEjemplo1,
      solEjemplo2]
    rfl
  refine ⟨h.1, h.2 ?_ ?_⟩
  · rw [happr]
    simp
  · rw [happr]
    simp

/-- C7: evidence that the code violates the claim: a negative budget is
not rejected; the engine runs to completion and silently returns an
empty approved set, the request waitlisted, and the negative budget as
the remaining capital. -/
theorem C7_negative_budget_not_rejected :
    optimizar_prestamos [solCincuenta] (-100) pesosDemo =
      ([], [(0, scoreRow pesosDemo solCincuenta)], -100) := by
  norm_num [optimizar_prestamos, scoredTable, scoreRow, calcIPS,
    sortDescEff, effLe, greedyIdx, locRows, dropRows,
    List.insertionSort, List.orderedInsert, List.enum, List.enumFrom,
    List.find?, List.filterMap, List.filter, pesosDemo, solCincuenta]

/-- C8 counterexample: the engine is not side-effect-free with respect to
its `df` argument: after the call the argument table differs from the
table that was passed in (two derived columns have been added to it). -/
theorem C8_df_argument_mutated :
    dfArgAfterCall pesosDemo [plainRow solEjemplo1] ≠ [plainRow solEjemplo1] := by
  simp [dfArgAfterCall, plainRow]

/-- C8 amended: the function mutates its `df` argument in place, adding
exactly the two derived columns `IPS` and `Eficiencia_Solidaria`; the
underlying request fields are unchanged and no rows are added or removed
(the demo caller passes a copy, so the caller's own table is safe). -/
theorem C8_mutation_adds_columns_only (p : Pesos) (df : List RowOpt) :
    (dfArgAfterCall p df).map RowOpt.sol = df.map RowOpt.sol ∧
      (dfArgAfterCall p df).length = df.length ∧
      ∀ r ∈ dfArgAfterCall p df,
        r.ipsCol = some (calcIPS p r.sol) ∧
          r.effCol = some (calcIPS p r.sol / r.sol.monto) := by
  refine ⟨?_, ?_, ?_⟩
  · simp [dfArgAfterCall]
  · simp [dfArgAfterCall]
  · intro r hr
    rcases List.mem_map.mp hr with ⟨s, _, hs⟩
    rw [← hs]
    exact ⟨rfl, rfl⟩

/-- Witness for the amended C8 on a one-row table. -/
theorem C8_mutation_adds_columns_only_witness :
    ((dfArgAfterCall pesosDemo [plainRow solEjemplo1]).map RowOpt.sol =
        [plainRow solEjemplo1].map RowOpt.sol) ∧
      ((dfArgAfterCall pesosDemo [plainRow solEjemplo1]).length = 1) ∧
      (RowOpt.ipsCol ⟨solEjemplo1, some (calcIPS pesosDemo solEjemplo1),
          some (calcIPS pesosDemo solEjemplo1 / solEjemplo1.monto)⟩ =
        some (calcIPS pesosDemo solEjemplo1)) :=
  ⟨(C8_mutation_adds_columns_only pesosDemo [plainRow solEjemplo1]).1,
    (C8_mutation_adds_columns_only pesosDemo [plainRow solEjemplo1]).2.1,
    ((C8_mutation_adds_columns_only pesosDemo [plainRow solEjemplo1]).2.2
      ⟨solEjemplo1, some (calcIPS pesosDemo solEjemplo1),
        some (calcIPS pesosDemo solEjemplo1 / solEjemplo1.monto)⟩
      (by simp [dfArgAfterCall, plainRow])).1⟩

/-- C9: the allocation is deterministic: two calls with identical inputs
(same request collection in the same order, same budget, same weights)
return identical outputs. -/
theorem C9_deterministic (df1 df2 : List Solicitud) (c1 c2 : ℚ)
    (p1 p2 : Pesos) (hdf : df1 = df2) (hc : c1 = c2) (hp : p1 = p2) :
    optimizar_prestamos df1 c1 p1 = optimizar_prestamos df2 c2 p2 := by
  rw [hdf, hc, hp]

/-- Witness for C9 at a concrete repeated call. -/
theorem C9_deterministic_witness :
    optimizar_prestamos [solEjemplo1] 100 pesosDemo =
      optimizar_prestamos [solEjemplo1] 100 pesosDemo :=
  C9_deterministic [solEjemplo1] [solEjemplo1] 100 100 pesosDemo pesosDemo
    rfl rfl rfl

/-- C10: the waitlisted partition is returned in the original input order
of the request collection: it is a sublist of the index-labelled input
table (so its rows appear exactly as supplied, labels strictly
increasing), unlike the approved partition, which carries the sort
order. -/
theorem C10_waitlist_input_order (df : List Solicitud) (cap : ℚ) (p : Pesos) :
    (optimizar_prestamos df cap p).2.1 <+ (scoredTable p df).enum ∧
      (optimizar_prestamos df cap p).2.1.Pairwise (fun a b => a.1 < b.1) := by
  have hsub : (optimizar_prestamos df cap p).2.1 <+ (scoredTable p df).enum := by
    rw [optimizar_rechazados_eq]
    exact List.filter_sublist _
  exact ⟨hsub, (enum_pairwise_fst_lt _).sublist hsub⟩
